import Mathlib

set_option maxRecDepth 100000

/-!
Verification of the core audio-bridge code (Twilio Media Streams to OpenAI
Realtime): the mu-law codec, the linear resampler, the frame packetizers,
and the per-call session machines of the two revisions contained in
`server.js`.  Machine integers are modelled as `Nat`/`Int`.  The codec
integer paths only use values on which JavaScript number arithmetic is
exact; the resampler computes genuine fractional values, so its JavaScript
doubles are modelled as exact rationals rounded to the nearest IEEE-754
binary64 value (`roundQ`) after every arithmetic operation.
-/

/-! ### Codec engine: mu-law decode (`ulawDecode`, `muLawToPCM16`) -/

/-- `ulawDecode` from `server.js`:
`sample=~sample&0xFF; let t=((sample&QUANT_MASK)<<3)+0x84;`
`t<<=((sample&SEG_MASK)>>>SEG_SHIFT); return((sample&SIGN_BIT)?(0x84-t):(t-0x84))`.
For a byte argument `b`, JavaScript `~b & 0xFF` is `255 - b % 256`. -/
def ulawDecode (sample : Nat) : Int :=
  let u : Nat := 255 - sample % 256
  let t : Nat := (((u &&& 0x0F) <<< 3) + 0x84) <<< ((u &&& 0x70) >>> 4)
  if u &&& 0x80 ≠ 0 then (0x84 : Int) - (t : Int) else (t : Int) - 0x84

/-- `muLawToPCM16` from `server.js`: decode each byte of the buffer. -/
def muLawToPCM16 (ulawBytes : List Nat) : List Int :=
  ulawBytes.map ulawDecode

/-! ### Codec engine: linear resampler (`linearResamplePCM16`) -/

/-- JavaScript `ToInt32` wrap of an integer (the final step of `x | 0`). -/
def toInt32 (n : Int) : Int := (n + 2 ^ 31) % 2 ^ 32 - 2 ^ 31

/-- Truncation toward zero of a rational, as JavaScript `x | 0` truncates. -/
def ratTrunc (q : ℚ) : Int := q.num.tdiv (q.den : Int)

/-- JavaScript `x | 0`: truncate toward zero, then wrap to a 32-bit int. -/
def jsOrZero (q : ℚ) : Int := toInt32 (ratTrunc q)

/-- Fuelled base-2 logarithm on `Nat`: `log2Fuel fuel n` is the floor of
the base-2 logarithm of `n` whenever `0 < n` and `n ≤ fuel`.  Structural
recursion on the fuel keeps it kernel-computable. -/
def log2Fuel : Nat → Nat → Nat
  | 0, _ => 0
  | fuel + 1, n => if 2 ≤ n then log2Fuel fuel (n / 2) + 1 else 0

/-- Floor of the base-2 logarithm of a positive rational, from the
numerator and denominator logarithms with a one-step correction. -/
def floorLog2 (a : ℚ) : ℤ :=
  let e0 : ℤ := (log2Fuel a.num.toNat a.num.toNat : ℤ) - (log2Fuel a.den a.den : ℤ)
  if a < 2 ^ e0 then e0 - 1 else if 2 ^ (e0 + 1) ≤ a then e0 + 1 else e0

/-- Round a rational to the nearest IEEE-754 binary64 value (round to
nearest, ties to even, 53-bit significand), the rounding JavaScript
number arithmetic applies after every operation.  The model covers the
normal range; the magnitudes this program computes neither underflow to
subnormals nor overflow. -/
def roundQ (q : ℚ) : ℚ :=
  if q = 0 then 0
  else
    let s : ℚ := if q < 0 then -1 else 1
    let e : ℤ := floorLog2 |q|
    let m : ℚ := |q| * 2 ^ (52 - e)
    let n : ℤ := ⌊m⌋
    let r : ℚ := m - (n : ℚ)
    let n2 : ℤ :=
      if r < 1 / 2 then n
      else if 1 / 2 < r then n + 1
      else if n % 2 = 0 then n else n + 1
    s * (n2 : ℚ) * 2 ^ (e - 52)

/-- JavaScript double addition: exact sum, rounded to binary64. -/
def jsAdd (a b : ℚ) : ℚ := roundQ (a + b)

/-- JavaScript double subtraction: exact difference, rounded to binary64. -/
def jsSub (a b : ℚ) : ℚ := roundQ (a - b)

/-- JavaScript double multiplication: exact product, rounded to binary64. -/
def jsMul (a b : ℚ) : ℚ := roundQ (a * b)

/-- JavaScript double division: exact quotient, rounded to binary64. -/
def jsDiv (a b : ℚ) : ℚ := roundQ (a / b)

/-- The binary64 value holding a machine integer (an array length, a
sample rate, a loop index). -/
def toDouble (n : Nat) : ℚ := roundQ (n : ℚ)

/-- `linearResamplePCM16` from `server.js`: identity when the rates agree,
otherwise linear interpolation at ratio `outRate/inRate`; output index `i`
reads source position `i/ratio`, between `i0 = floor` and
`i1 = min(i0+1, length-1)`, weighted by the fractional part, and the
interpolated value goes through `| 0`.  Every arithmetic operation is
IEEE-754 double arithmetic, so each one rounds its exact result through
`roundQ`; `Math.floor` and `Math.min` on already-computed doubles are
exact. -/
def linearResamplePCM16 (int16In : List Int) (inRate outRate : Nat) : List Int :=
  if inRate = outRate then int16In
  else
    let ratio : ℚ := jsDiv (toDouble outRate) (toDouble inRate)
    let outLen : Nat := (⌊jsMul (toDouble int16In.length) ratio⌋).toNat
    (List.range outLen).map (fun (i : Nat) =>
      let srcIndex : ℚ := jsDiv (toDouble i) ratio
      let i0 : Nat := (⌊srcIndex⌋).toNat
      let i1 : Nat := min (i0 + 1) (int16In.length - 1)
      let f : ℚ := jsSub srcIndex (i0 : ℚ)
      jsOrZero (jsAdd (jsMul (int16In.getD i0 0 : ℚ) (jsSub 1 f))
                      (jsMul (int16In.getD i1 0 : ℚ) f)))

/-- The resampler with its double arithmetic idealised as exact rational
arithmetic.  `linearResamplePCM16` agrees with this exactly when every
intermediate double value is exactly representable, which holds at the
doubling and halving ratios the program uses but not at arbitrary rate
pairs. -/
def resampleExactArith (int16In : List Int) (inRate outRate : Nat) : List Int :=
  if inRate = outRate then int16In
  else
    let ratio : ℚ := (outRate : ℚ) / (inRate : ℚ)
    let outLen : Nat := (⌊(int16In.length : ℚ) * ratio⌋).toNat
    (List.range outLen).map (fun (i : Nat) =>
      let srcIndex : ℚ := (i : ℚ) / ratio
      let i0 : Nat := (⌊srcIndex⌋).toNat
      let i1 : Nat := min (i0 + 1) (int16In.length - 1)
      let f : ℚ := srcIndex - (i0 : ℚ)
      jsOrZero ((int16In.getD i0 0 : ℚ) * (1 - f) + (int16In.getD i1 0 : ℚ) * f))

/-- The spec's description of one resampled sample: source position
`i/ratio`, interpolate between the `floor` and `ceil` neighbours (the upper
one clamped to the last valid index), weighted by the fractional part. -/
def resampleSpecSample (input : List Int) (inRate outRate : Nat) (i : Nat) : Int :=
  let ratio : ℚ := (outRate : ℚ) / (inRate : ℚ)
  let p : ℚ := (i : ℚ) / ratio
  let lo : Nat := (⌊p⌋).toNat
  let hi : Nat := min (⌈p⌉).toNat (input.length - 1)
  jsOrZero ((input.getD lo 0 : ℚ) * (1 - Int.fract p) + (input.getD hi 0 : ℚ) * Int.fract p)

/-! ### Codec engine: mu-law encode (`pcm16ToMuLaw`) -/

/-- `MULAW_MAX` from `server.js`. -/
def MULAW_MAX : Int := 0x1FFF

/-- JavaScript `a & mask` for a nonnegative 32-bit mask: both operands are
converted to 32-bit words, and the result of masking is nonnegative. -/
def jsAndByteMask (a : Int) (mask : Nat) : Nat :=
  (Int.toNat (a % 2 ^ 32)).land mask

/-- JavaScript `~x & 0xFF` (two's-complement not, then mask to a byte). -/
def jsNotAndFF (x : Nat) : Nat := jsAndByteMask (-(x : Int) - 1) 0xFF

/-- The exponent search of `pcm16ToMuLaw`:
`let exponent=7; for(let m=0x4000;(s&m)===0 && exponent>0; m>>=1) exponent--;`.
The first argument is the running `exponent` (also the loop fuel). -/
def muLawExpLoop : Nat → Nat → Int → Nat
  | 0, _, _ => 0
  | e + 1, m, s => if jsAndByteMask s m = 0 then muLawExpLoop e (m / 2) s else e + 1

/-- The tail of `pcm16ToMuLaw` after clamping and biasing: the exponent
loop, `mantissa=(s>>((exponent===0)?4:(exponent+3)))&0x0F`, and
`out[i]=~(sign|(exponent<<4)|mantissa)&0xFF`.  JavaScript `>>` on these
values is floor division (`Int.fdiv`). -/
def muLawAssembleByte (sign : Nat) (s3 : Int) : Nat :=
  let exponent : Nat := muLawExpLoop 7 0x4000 s3
  let mantissa : Nat :=
    jsAndByteMask (Int.fdiv s3 (2 ^ (if exponent = 0 then 4 else exponent + 3))) 0x0F
  jsNotAndFF (sign ||| (exponent <<< 4) ||| mantissa)

/-- `pcm16ToMuLaw` from `server.js`, per sample:
`let s=int16[i], sign=(s>>8)&0x80; if(sign) s=-s;`
`if (s>MULAW_MAX) s=MULAW_MAX; s+=0x84;` then the exponent, mantissa and
complement assembly of `muLawAssembleByte`. -/
def pcm16ToMuLawByte (sampleIn : Int) : Nat :=
  let sign : Nat := jsAndByteMask (Int.fdiv sampleIn 256) 0x80
  let s1 : Int := if sign ≠ 0 then -sampleIn else sampleIn
  let s2 : Int := if MULAW_MAX < s1 then MULAW_MAX else s1
  muLawAssembleByte sign (s2 + 0x84)

/-- `pcm16ToMuLaw` from `server.js`: encode each sample of the buffer. -/
def pcm16ToMuLaw (int16 : List Int) : List Nat :=
  int16.map pcm16ToMuLawByte

/-- Bias constant of the standard G.711 mu-law compression table. -/
def standardBias : Nat := 0x84

/-- Segment upper bounds of the standard G.711 mu-law compression table
(the classical `seg_end` table). -/
def standardSegEnd : List Nat :=
  [0xFF, 0x1FF, 0x3FF, 0x7FF, 0xFFF, 0x1FFF, 0x3FFF, 0x7FFF]

/-- Standard segment search: index of the first table entry at least the
biased value (8 when the value exceeds the table). -/
def standardSeg (v : Nat) : Nat :=
  standardSegEnd.findIdx (fun e => decide (v ≤ e))

/-- Reference assembly of the output byte from the clamped magnitude, using
the standard bias and the standard segment table for the exponent (the
mantissa extraction is kept as the source computes it: the claim under
check asserts only the bias and the segment boundaries). -/
def muLawReference (sign mag : Nat) : Nat :=
  let v : Nat := mag + standardBias
  let seg : Nat := standardSeg v
  let mant : Nat := (v >>> (if seg = 0 then 4 else seg + 3)) &&& 0x0F
  jsNotAndFF (sign ||| (seg <<< 4) ||| mant)

/-- Nat-level mirror of the exponent loop, used for exhaustive checking. -/
def natExpLoop : Nat → Nat → Nat → Nat
  | 0, _, _ => 0
  | e + 1, m, v => if v.land m = 0 then natExpLoop e (m / 2) v else e + 1

/-- Nat-level mirror of `muLawAssembleByte` on small nonnegative inputs. -/
def natAssembleByte (sign v : Nat) : Nat :=
  let exponent : Nat := natExpLoop 7 0x4000 v
  let mantissa : Nat := (v >>> (if exponent = 0 then 4 else exponent + 3)).land 0x0F
  255 - (sign ||| (exponent <<< 4) ||| mantissa)

/-- Nat-level mirror of `muLawReference`. -/
def natReference (sign mag : Nat) : Nat :=
  let v : Nat := mag + standardBias
  let seg : Nat := standardSeg v
  let mant : Nat := (v >>> (if seg = 0 then 4 else seg + 3)).land 0x0F
  255 - (sign ||| (seg <<< 4) ||| mant)

/-! ### Frame packetizers -/

/-- The frame loop of `sendUlawFrames`:
`for(let i=0;i+160<=ulawBytes.length;i+=160)` sends
`ulawBytes.subarray(i,i+160)`; a final remainder shorter than the frame
size is never reached by the loop.  Parametrized by the frame size the
source fixes to 160. -/
def chunksDropRemainder (frameSize : Nat) (buf : List Nat) : List (List Nat) :=
  if h : 0 < frameSize ∧ frameSize ≤ buf.length then
    buf.take frameSize :: chunksDropRemainder frameSize (buf.drop frameSize)
  else []
termination_by buf.length
decreasing_by
  simp only [List.length_drop]
  omega

/-- The frame loop of the 320-byte `sendToTwilio`:
`for(let i=0;i<ulawBytes.length;i+=320)` sends
`ulawBytes.subarray(i,i+320)`; `subarray` clamps, so the final frame may be
shorter than the frame size.  Parametrized by the frame size the source
fixes to 320. -/
def chunksKeepRemainder (frameSize : Nat) (buf : List Nat) : List (List Nat) :=
  if h : 0 < frameSize ∧ buf ≠ [] then
    buf.take frameSize :: chunksKeepRemainder frameSize (buf.drop frameSize)
  else []
termination_by buf.length
decreasing_by
  simp only [List.length_drop]
  cases buf with
  | nil => exact absurd rfl h.2
  | cons a l => simp; omega

/-- The frames sent by `sendUlawFrames` (`part_003`, frame size 160). -/
def sendUlawFramesFrames (buf : List Nat) : List (List Nat) :=
  chunksDropRemainder 160 buf

/-- The frames sent by `sendToTwilio` (`part_002`, frame size 320). -/
def sendToTwilioFrames (buf : List Nat) : List (List Nat) :=
  chunksKeepRemainder 320 buf

/-! ### The silence frame -/

/-- `ULAW_SILENCE_20MS = new Uint8Array(160).fill(0xFF)` from `server.js`. -/
def ULAW_SILENCE_20MS : List Nat := List.replicate 160 0xFF

/-! ### Session machines

`server.js` contains two revisions of `handleTwilio`.  The first revision
keeps a `framesSinceCommit` counter and, on every twentieth caller media
frame, sends `input_audio_buffer.commit` followed by `response.create`
with no guard.  The second revision keeps the `inResponse`,
`gotFirstOpenAIAudio` and `sessionReady` flags, the silence pump, and the
idempotent close handler.  Each revision is embedded as a step function on
an explicit per-call state, producing the list of messages the handler
sends; timer callbacks and socket events are the events of the machine. -/

/-- Readiness of the Twilio websocket as the handlers observe it. -/
inductive SockState
  | opened
  | closing
  | closed
deriving DecidableEq

/-- Messages sent to the Twilio leg, tagged by the send site. -/
inductive TwilioOut
  | mediaFiller (payload : List Nat)
  | mediaAgent (payload : List Nat)
  | markTick
deriving DecidableEq

/-- Messages sent to the OpenAI leg. -/
inductive AgentOut
  | sessionUpdate
  | appendAudio (audio : List Int)
  | commitInput
  | responseCreate
deriving DecidableEq

/-- An outbound message of the bridge, on either leg. -/
inductive BridgeOut
  | toTwilio (m : TwilioOut)
  | toAgent (m : AgentOut)
deriving DecidableEq

/-- Per-call state of the second revision of `handleTwilio`: the mutable
variables of the closure, plus instrumentation counters recording how many
times the agent socket was closed and each timer cancelled. -/
structure Rev2State where
  isOpen : Bool
  twilioSock : SockState
  agentSockOpen : Bool
  keepaliveActive : Bool
  silencePumpActive : Bool
  gotFirstOpenAIAudio : Bool
  inResponse : Bool
  sessionReady : Bool
  agentCloseCalls : Nat
  keepaliveClearCalls : Nat
  pumpClearCalls : Nat
deriving DecidableEq

/-- Events delivered to the second revision's per-call closure after the
`start` event has been handled: the silence-pump timer tick, parsed and
unparseable Twilio messages, the Twilio socket's `close` event (fired at
most once by the socket, modelled by its no-op on an already closed
socket), the greeting retry, and parsed and unparseable OpenAI messages. -/
inductive Rev2Event
  | pumpTick
  | twilioMedia (payload : List Nat)
  | twilioMalformed
  | twilioStop
  | twilioClose
  | greetAttempt
  | agentSessionUpdated
  | agentResponseStarted
  | agentResponseCompleted
  | agentResponseFailed
  | agentAudioDelta (ulaw : List Nat)
  | agentMalformed
  | agentError
deriving DecidableEq

/-- `sendToTwilio` of the second revision: send only while `open` and the
socket is `OPEN`. -/
def rev2SendToTwilio (s : Rev2State) (m : TwilioOut) : List BridgeOut :=
  if s.isOpen = true ∧ s.twilioSock = SockState.opened then [BridgeOut.toTwilio m] else []

/-- One event of the second revision's per-call handlers. -/
def rev2Step (s : Rev2State) : Rev2Event → Rev2State × List BridgeOut
  | .pumpTick =>
      if s.silencePumpActive = true then
        (s, rev2SendToTwilio s (TwilioOut.mediaFiller ULAW_SILENCE_20MS))
      else (s, [])
  | .twilioMedia payload =>
      if s.agentSockOpen = true then
        (s, [BridgeOut.toAgent (AgentOut.appendAudio
              (linearResamplePCM16 (muLawToPCM16 payload) 8000 16000))])
      else (s, [])
  | .twilioMalformed => (s, [])
  | .twilioStop =>
      ({ s with twilioSock := if s.twilioSock = SockState.opened then SockState.closing
                              else s.twilioSock }, [])
  | .twilioClose =>
      if s.twilioSock = SockState.closed then (s, [])
      else
        ({ s with isOpen := false
                  twilioSock := SockState.closed
                  keepaliveActive := false
                  keepaliveClearCalls :=
                    s.keepaliveClearCalls + (if s.keepaliveActive then 1 else 0)
                  silencePumpActive := false
                  pumpClearCalls :=
                    s.pumpClearCalls + (if s.silencePumpActive then 1 else 0)
                  agentSockOpen := false
                  agentCloseCalls := s.agentCloseCalls + 1 }, [])
  | .greetAttempt =>
      if s.sessionReady = true then
        ({ s with inResponse := true }, [BridgeOut.toAgent AgentOut.responseCreate])
      else (s, [])
  | .agentSessionUpdated => ({ s with sessionReady := true }, [])
  | .agentResponseStarted => ({ s with inResponse := true }, [])
  | .agentResponseCompleted => ({ s with inResponse := false }, [])
  | .agentResponseFailed => ({ s with inResponse := false }, [])
  | .agentAudioDelta d =>
      let s' := if s.gotFirstOpenAIAudio = true then s
                else { s with gotFirstOpenAIAudio := true
                              silencePumpActive := false
                              pumpClearCalls :=
                                s.pumpClearCalls + (if s.silencePumpActive then 1 else 0) }
      (s', rev2SendToTwilio s' (TwilioOut.mediaAgent d))
  | .agentMalformed => (s, [])
  | .agentError => (s, [])

/-- Run the second revision's machine over a list of events, collecting
all outbound messages in order. -/
def rev2Run (s : Rev2State) : List Rev2Event → Rev2State × List BridgeOut
  | [] => (s, [])
  | e :: rest =>
      let p := rev2Step s e
      let q := rev2Run p.1 rest
      (q.1, p.2 ++ q.2)

/-- The second revision's per-call state right after its `start` handler:
both sockets open, keep-alive and silence pump running, no agent audio
seen, no response in flight, session not yet acknowledged. -/
def rev2PostStart : Rev2State :=
  { isOpen := true
    twilioSock := SockState.opened
    agentSockOpen := true
    keepaliveActive := true
    silencePumpActive := true
    gotFirstOpenAIAudio := false
    inResponse := false
    sessionReady := false
    agentCloseCalls := 0
    keepaliveClearCalls := 0
    pumpClearCalls := 0 }

/-- `COMMIT_EVERY_FRAMES = 20` of the first revision of `handleTwilio`. -/
def COMMIT_EVERY_FRAMES : Nat := 20

/-- Per-call state of the first revision of `handleTwilio`. -/
structure Rev1State where
  isOpen : Bool
  twilioSock : SockState
  agentSockOpen : Bool
  keepaliveActive : Bool
  framesSinceCommit : Nat
deriving DecidableEq

/-- Events delivered to the first revision's per-call closure after its
`start` event.  Its OpenAI handler reacts only to audio deltas; it has no
handling of generation started/completed events at all. -/
inductive Rev1Event
  | twilioMedia (payload : List Nat)
  | twilioMalformed
  | twilioStop
  | twilioDtmf
  | twilioClose
  | agentAudioDelta (pcm16at16k : List Int)
  | agentMalformed
deriving DecidableEq

/-- One event of the first revision's per-call handlers.  On a caller media
frame with the agent socket open it appends the transcoded audio,
increments `framesSinceCommit`, and at the threshold resets the counter
and sends `input_audio_buffer.commit` plus `response.create`,
unconditionally. -/
def rev1Step (s : Rev1State) : Rev1Event → Rev1State × List BridgeOut
  | .twilioMedia payload =>
      if s.agentSockOpen = true then
        let appendMsg := BridgeOut.toAgent (AgentOut.appendAudio
          (linearResamplePCM16 (muLawToPCM16 payload) 8000 16000))
        let n := s.framesSinceCommit + 1
        if COMMIT_EVERY_FRAMES ≤ n then
          ({ s with framesSinceCommit := 0 },
           [appendMsg, BridgeOut.toAgent AgentOut.commitInput,
            BridgeOut.toAgent AgentOut.responseCreate])
        else ({ s with framesSinceCommit := n }, [appendMsg])
      else (s, [])
  | .twilioMalformed => (s, [])
  | .twilioStop =>
      ({ s with twilioSock := if s.twilioSock = SockState.opened then SockState.closing
                              else s.twilioSock },
       if s.agentSockOpen = true then
         [BridgeOut.toAgent AgentOut.commitInput, BridgeOut.toAgent AgentOut.responseCreate]
       else [])
  | .twilioDtmf =>
      (s, if s.agentSockOpen = true then
            [BridgeOut.toAgent AgentOut.commitInput, BridgeOut.toAgent AgentOut.responseCreate]
          else [])
  | .twilioClose =>
      if s.twilioSock = SockState.closed then (s, [])
      else ({ s with isOpen := false
                     twilioSock := SockState.closed
                     keepaliveActive := false
                     agentSockOpen := false }, [])
  | .agentAudioDelta pcm =>
      (s, if s.isOpen = true ∧ s.twilioSock = SockState.opened then
            [BridgeOut.toTwilio (TwilioOut.mediaAgent
              (pcm16ToMuLaw (linearResamplePCM16 pcm 16000 8000)))]
          else [])
  | .agentMalformed => (s, [])

/-- Run the first revision's machine over a list of events. -/
def rev1Run (s : Rev1State) : List Rev1Event → Rev1State × List BridgeOut
  | [] => (s, [])
  | e :: rest =>
      let p := rev1Step s e
      let q := rev1Run p.1 rest
      (q.1, p.2 ++ q.2)

/-- The first revision's per-call state right after its `start` handler. -/
def rev1PostStart : Rev1State :=
  { isOpen := true
    twilioSock := SockState.opened
    agentSockOpen := true
    keepaliveActive := true
    framesSinceCommit := 0 }

/-- Count of `response.create` messages in an output trace. -/
def countResponseCreate (outs : List BridgeOut) : Nat :=
  outs.countP (fun o => o = BridgeOut.toAgent AgentOut.responseCreate)

/-- Is an outbound message a filler frame from the silence pump? -/
def isFillerOut : BridgeOut → Bool
  | .toTwilio (.mediaFiller _) => true
  | _ => false

/-- Is an outbound message a forwarded real agent audio frame? -/
def isAgentAudioOut : BridgeOut → Bool
  | .toTwilio (.mediaAgent _) => true
  | _ => false

/-- Does a filler frame occur anywhere after a real agent audio frame? -/
def hasFillerAfterAgentAudio : List BridgeOut → Bool
  | [] => false
  | o :: rest =>
      if isAgentAudioOut o = true then rest.any isFillerOut
      else hasFillerAfterAgentAudio rest

/-- Teardown invariant of the second revision: the keep-alive timer is
alive exactly until the close handler runs, each instrumentation counter
matches the corresponding resource's state, and a closed socket implies
everything is torn down. -/
def rev2TeardownInv (s : Rev2State) : Prop :=
  (s.twilioSock = SockState.closed →
    s.keepaliveActive = false ∧ s.silencePumpActive = false ∧
    s.isOpen = false ∧ s.agentSockOpen = false) ∧
  (s.twilioSock ≠ SockState.closed → s.keepaliveActive = true) ∧
  (s.agentCloseCalls = if s.twilioSock = SockState.closed then 1 else 0) ∧
  (s.keepaliveClearCalls = if s.twilioSock = SockState.closed then 1 else 0) ∧
  (s.pumpClearCalls = if s.silencePumpActive then 0 else 1)

/-! ### Helper lemmas -/

lemma land128_small : ∀ n : Nat, n < 128 → Nat.land n 128 = 0 := by decide

lemma land128_big : ∀ k : Nat, k < 128 → Nat.land (4294967168 + k) 128 = 128 := by decide

/-- The sign computation `(s>>8)&0x80` of `pcm16ToMuLaw` yields `0` on
nonnegative 16-bit samples. -/
lemma sign_of_nonneg (s : Int) (h0 : 0 ≤ s) (h1 : s ≤ 32767) :
    jsAndByteMask (Int.fdiv s 256) 0x80 = 0 := by
  rw [jsAndByteMask, Int.fdiv_eq_ediv s (by norm_num),
    show (2 : Int) ^ 32 = 4294967296 from by norm_num]
  have h3 : s / 256 % 4294967296 = s / 256 := by omega
  rw [h3]
  exact land128_small _ (by omega)

/-- The sign computation `(s>>8)&0x80` of `pcm16ToMuLaw` yields `0x80` on
negative 16-bit samples. -/
lemma sign_of_neg (s : Int) (h0 : -32768 ≤ s) (h1 : s < 0) :
    jsAndByteMask (Int.fdiv s 256) 0x80 = 0x80 := by
  rw [jsAndByteMask, Int.fdiv_eq_ediv s (by norm_num),
    show (2 : Int) ^ 32 = 4294967296 from by norm_num]
  have h3 : s / 256 % 4294967296 = s / 256 + 4294967296 := by omega
  rw [h3, show (s / 256 + 4294967296).toNat = 4294967168 + (s / 256 + 128).toNat from by omega]
  exact land128_big _ (by omega)

lemma jsAndByteMask_natCast (v : Nat) (hv : v < 4294967296) (m : Nat) :
    jsAndByteMask (v : Int) m = v.land m := by
  rw [jsAndByteMask, show ((2 : Int) ^ 32) = 4294967296 from by norm_num]
  have h1 : (v : Int) % 4294967296 = (v : Int) := by omega
  rw [h1, Int.toNat_ofNat]

lemma natExpLoop_le : ∀ e m v, natExpLoop e m v ≤ e := by
  intro e
  induction e with
  | zero => intro m v; exact le_refl 0
  | succ e ih =>
    intro m v
    rw [natExpLoop]
    split_ifs
    · exact le_trans (ih _ v) (Nat.le_succ e)
    · exact le_refl _

lemma muLawExpLoop_natCast : ∀ (e m : Nat) (v : Nat), v < 4294967296 →
    muLawExpLoop e m (v : Int) = natExpLoop e m v := by
  intro e
  induction e with
  | zero => intro m v hv; rfl
  | succ e ih =>
    intro m v hv
    rw [muLawExpLoop, natExpLoop, jsAndByteMask_natCast v hv m]
    split_ifs
    · exact ih _ v hv
    · rfl

lemma jsNotAndFF_small : ∀ x : Nat, x < 256 → jsNotAndFF x = 255 - x := by decide

lemma land_hand (a b : Nat) : Nat.land a b = a &&& b := rfl

lemma muLawAssembleByte_natCast (sign v : Nat) (hs : sign ≤ 128) (hv : v < 16384) :
    muLawAssembleByte sign (v : Int) = natAssembleByte sign v := by
  have he := muLawExpLoop_natCast 7 0x4000 v (by omega)
  have hele := natExpLoop_le 7 0x4000 v
  simp only [muLawAssembleByte, natAssembleByte, he]
  have hcastpow : ((2 : Int) ^ (if natExpLoop 7 0x4000 v = 0 then 4 else natExpLoop 7 0x4000 v + 3))
      = (((2 : Nat) ^ (if natExpLoop 7 0x4000 v = 0 then 4 else natExpLoop 7 0x4000 v + 3) : Nat) : Int) := by
    push_cast
    ring
  rw [hcastpow, ← Int.ofNat_fdiv,
    jsAndByteMask_natCast _ (lt_of_le_of_lt (Nat.div_le_self _ _) (by omega)) 0x0F]
  rw [Nat.shiftRight_eq_div_pow]
  refine jsNotAndFF_small _ ?_
  have h1 : sign < 2 ^ 8 := by omega
  have h2 : natExpLoop 7 0x4000 v <<< 4 < 2 ^ 8 := by
    rw [Nat.shiftLeft_eq]
    omega
  have h3 : (v / 2 ^ (if natExpLoop 7 0x4000 v = 0 then 4 else natExpLoop 7 0x4000 v + 3)).land 0x0F
      < 2 ^ 8 := by
    rw [land_hand]
    have h4 : (v / 2 ^ (if natExpLoop 7 0x4000 v = 0 then 4 else natExpLoop 7 0x4000 v + 3)) &&& 0x0F ≤ 0x0F :=
      Nat.and_le_right
    omega
  exact Nat.or_lt_two_pow (Nat.or_lt_two_pow h1 h2) h3

lemma muLawReference_natCast (sign mag : Nat) (hs : sign ≤ 128) :
    muLawReference sign mag = natReference sign mag := by
  simp only [muLawReference, natReference]
  refine jsNotAndFF_small _ ?_
  have hseg : standardSeg (mag + standardBias) ≤ 8 := by
    have h : List.findIdx (fun e => decide (mag + standardBias ≤ e)) standardSegEnd
        ≤ standardSegEnd.length := List.findIdx_le_length _
    simpa [standardSeg, standardSegEnd] using h
  have h1 : sign < 2 ^ 8 := by omega
  have h2 : standardSeg (mag + standardBias) <<< 4 < 2 ^ 8 := by
    rw [Nat.shiftLeft_eq]
    omega
  have h3 : ((mag + standardBias) >>> (if standardSeg (mag + standardBias) = 0 then 4
      else standardSeg (mag + standardBias) + 3)).land 0x0F < 2 ^ 8 := by
    rw [land_hand]
    have h4 : ((mag + standardBias) >>> (if standardSeg (mag + standardBias) = 0 then 4
        else standardSeg (mag + standardBias) + 3)) &&& 0x0F ≤ 0x0F := Nat.and_le_right
    omega
  exact Nat.or_lt_two_pow (Nat.or_lt_two_pow h1 h2) h3

set_option maxHeartbeats 4000000 in
lemma natAssembleBall : ∀ q : Nat, q < 16 → ∀ r : Nat, r < 512 →
    (natAssembleByte 0 (512 * q + r + 0x84) = natReference 0 (512 * q + r) ∧
     natAssembleByte 128 (512 * q + r + 0x84) = natReference 128 (512 * q + r) ∧
     natExpLoop 7 0x4000 (512 * q + r + 0x84) = standardSeg (512 * q + r + standardBias) ∧
     natReference 0 (512 * q + r) < 256 ∧ natReference 128 (512 * q + r) < 256) := by
  decide

/-- Exhaustive check over every clamped magnitude `512*q + r ≤ 8191`: the
assembled byte agrees with the reference assembly for both sign bits, the
exponent loop agrees with the standard segment table applied to the
magnitude plus the standard bias, and the reference byte is a byte. -/
lemma muLawAssembleBall : ∀ q : Nat, q < 16 → ∀ r : Nat, r < 512 →
    (muLawAssembleByte 0 (((512 * q + r : Nat) : Int) + 0x84) = muLawReference 0 (512 * q + r) ∧
     muLawAssembleByte 128 (((512 * q + r : Nat) : Int) + 0x84)
       = muLawReference 128 (512 * q + r) ∧
     muLawExpLoop 7 0x4000 (((512 * q + r : Nat) : Int) + 0x84)
       = standardSeg (512 * q + r + standardBias) ∧
     muLawReference 0 (512 * q + r) < 256 ∧ muLawReference 128 (512 * q + r) < 256) := by
  intro q hq r hr
  obtain ⟨n1, n2, n3, n4, n5⟩ := natAssembleBall q hq r hr
  have harg : ((512 * q + r : Nat) : Int) + 0x84 = ((512 * q + r + 0x84 : Nat) : Int) := by
    push_cast
    ring
  have hmag : 512 * q + r + 0x84 < 16384 := by omega
  refine ⟨?_, ?_, ?_, ?_, ?_⟩
  · rw [harg, muLawAssembleByte_natCast 0 _ (by omega) hmag,
      muLawReference_natCast 0 _ (by omega)]
    exact n1
  · rw [harg, muLawAssembleByte_natCast 128 _ (by omega) hmag,
      muLawReference_natCast 128 _ (by omega)]
    exact n2
  · rw [harg, muLawExpLoop_natCast 7 0x4000 _ (by omega)]
    exact n3
  · rw [muLawReference_natCast 0 _ (by omega)]
    exact n4
  · rw [muLawReference_natCast 128 _ (by omega)]
    exact n5

/-- On a negative 16-bit sample the encoder reduces to the assembly of the
clamped magnitude with the sign bit set. -/
lemma pcm16ToMuLawByte_neg (s : Int) (hlo : -32768 ≤ s) (hneg : s < 0) :
    pcm16ToMuLawByte s = muLawAssembleByte 128 (((min s.natAbs 8191 : Nat) : Int) + 0x84) := by
  rw [pcm16ToMuLawByte, sign_of_neg s hlo hneg]
  simp only [MULAW_MAX]
  rw [if_pos (show (128 : Nat) ≠ 0 from by decide)]
  congr 1
  rw [Nat.cast_min, Int.ofNat_natAbs_of_nonpos (le_of_lt hneg),
    show ((8191 : Nat) : Int) = 8191 from by norm_num]
  split_ifs with h <;> omega

/-- On a nonnegative 16-bit sample the encoder reduces to the assembly of
the clamped magnitude with the sign bit clear. -/
lemma pcm16ToMuLawByte_nonneg (s : Int) (hpos : 0 ≤ s) (hhi : s ≤ 32767) :
    pcm16ToMuLawByte s = muLawAssembleByte 0 (((min s.natAbs 8191 : Nat) : Int) + 0x84) := by
  rw [pcm16ToMuLawByte, sign_of_nonneg s hpos hhi]
  rw [if_neg (show ¬((0 : Nat) ≠ 0) from by decide)]
  simp only [MULAW_MAX]
  congr 1
  rw [Nat.cast_min, Int.natAbs_of_nonneg hpos,
    show ((8191 : Nat) : Int) = 8191 from by norm_num]
  split_ifs with h <;> omega

/-! ### Helper lemmas for the traces of the second revision -/

lemma rev2Run_cons (s : Rev2State) (e : Rev2Event) (rest : List Rev2Event) :
    rev2Run s (e :: rest)
      = ((rev2Run (rev2Step s e).1 rest).1,
         (rev2Step s e).2 ++ (rev2Run (rev2Step s e).1 rest).2) := rfl

lemma isFillerOut_filler (p : List Nat) :
    isFillerOut (BridgeOut.toTwilio (TwilioOut.mediaFiller p)) = true := rfl

lemma isFillerOut_agentMedia (p : List Nat) :
    isFillerOut (BridgeOut.toTwilio (TwilioOut.mediaAgent p)) = false := rfl

lemma isFillerOut_toAgent (m : AgentOut) : isFillerOut (BridgeOut.toAgent m) = false := rfl

lemma isAgentAudioOut_filler (p : List Nat) :
    isAgentAudioOut (BridgeOut.toTwilio (TwilioOut.mediaFiller p)) = false := rfl

lemma isAgentAudioOut_agentMedia (p : List Nat) :
    isAgentAudioOut (BridgeOut.toTwilio (TwilioOut.mediaAgent p)) = true := rfl

lemma isAgentAudioOut_toAgent (m : AgentOut) :
    isAgentAudioOut (BridgeOut.toAgent m) = false := rfl

lemma hFAA_cons_nonaudio (o : BridgeOut) (rest : List BridgeOut)
    (h : isAgentAudioOut o = false) :
    hasFillerAfterAgentAudio (o :: rest) = hasFillerAfterAgentAudio rest := by
  simp [hasFillerAfterAgentAudio, h]

lemma hFAA_cons_audio (o : BridgeOut) (rest : List BridgeOut)
    (h : isAgentAudioOut o = true) :
    hasFillerAfterAgentAudio (o :: rest) = rest.any isFillerOut := by
  simp [hasFillerAfterAgentAudio, h]

/-- Once the latch is set with the pump cleared, every step keeps the
latch set and the pump cleared (the latch is one-way and the pump never
restarts within a call). -/
lemma rev2Step_preserves_latched (s : Rev2State) (e : Rev2Event)
    (hg : s.gotFirstOpenAIAudio = true) (hp : s.silencePumpActive = false) :
    (rev2Step s e).1.gotFirstOpenAIAudio = true ∧
    (rev2Step s e).1.silencePumpActive = false := by
  cases e <;> simp [rev2Step, rev2SendToTwilio, hg, hp] <;> split_ifs <;> simp [hg, hp]

/-- The latch-pump invariant (latched implies pump off) is preserved by
every step. -/
lemma rev2Step_inv (s : Rev2State) (e : Rev2Event)
    (hInv : s.gotFirstOpenAIAudio = true → s.silencePumpActive = false) :
    (rev2Step s e).1.gotFirstOpenAIAudio = true →
    (rev2Step s e).1.silencePumpActive = false := by
  by_cases hg : s.gotFirstOpenAIAudio = true
  · exact fun _ => (rev2Step_preserves_latched s e hg (hInv hg)).2
  · simp only [Bool.not_eq_true] at hg
    cases e <;> simp [rev2Step, rev2SendToTwilio, hg] <;> split_ifs <;> simp [hg]

/-- A step from a latched state with the pump off emits no filler frame. -/
lemma rev2Step_out_noFiller (s : Rev2State) (e : Rev2Event)
    (hg : s.gotFirstOpenAIAudio = true) (hp : s.silencePumpActive = false) :
    (rev2Step s e).2.any isFillerOut = false := by
  cases e <;>
    simp only [rev2Step, rev2SendToTwilio, hg, hp] <;>
    (try split_ifs) <;>
    simp_all [isFillerOut_filler, isFillerOut_agentMedia, isFillerOut_toAgent]

/-- From a latched state with the pump off, no run ever emits a filler
frame. -/
lemma rev2Run_latched_noFiller : ∀ (evs : List Rev2Event) (s : Rev2State),
    s.gotFirstOpenAIAudio = true → s.silencePumpActive = false →
    (rev2Run s evs).2.any isFillerOut = false := by
  intro evs
  induction evs with
  | nil => intro s hg hp; rfl
  | cons e rest ih =>
    intro s hg hp
    rw [rev2Run_cons, List.any_append, Bool.or_eq_false_iff]
    obtain ⟨hg', hp'⟩ := rev2Step_preserves_latched s e hg hp
    exact ⟨rev2Step_out_noFiller s e hg hp, ih _ hg' hp'⟩

/-- Under the latch-pump invariant, a step's output either contains no
real agent audio frame, or the resulting state is latched with the pump
off. -/
lemma rev2Step_out_audio_latched (s : Rev2State) (e : Rev2Event)
    (hInv : s.gotFirstOpenAIAudio = true → s.silencePumpActive = false) :
    (rev2Step s e).2.any isAgentAudioOut = false ∨
    ((rev2Step s e).1.gotFirstOpenAIAudio = true ∧
     (rev2Step s e).1.silencePumpActive = false) := by
  cases e with
  | agentAudioDelta d =>
    right
    by_cases hg : s.gotFirstOpenAIAudio = true
    · constructor <;> simp [rev2Step, hg, hInv hg]
    · simp only [Bool.not_eq_true] at hg
      constructor <;> simp [rev2Step, hg]
  | pumpTick =>
    left
    by_cases hp : s.silencePumpActive = true <;>
      simp only [rev2Step, rev2SendToTwilio, hp] <;>
      (try split_ifs) <;>
      simp_all [isAgentAudioOut_filler]
  | twilioMedia payload =>
    left
    by_cases ha : s.agentSockOpen = true <;>
      simp only [rev2Step, ha] <;>
      (try split_ifs) <;>
      simp_all [isAgentAudioOut_toAgent]
  | twilioMalformed => left; rfl
  | twilioStop => left; rfl
  | twilioClose =>
    left
    by_cases hc : s.twilioSock = SockState.closed <;> simp [rev2Step, hc]
  | greetAttempt =>
    left
    by_cases hr : s.sessionReady = true <;>
      simp only [rev2Step, hr] <;>
      (try split_ifs) <;>
      simp_all [isAgentAudioOut_toAgent]
  | agentSessionUpdated => left; rfl
  | agentResponseStarted => left; rfl
  | agentResponseCompleted => left; rfl
  | agentResponseFailed => left; rfl
  | agentMalformed => left; rfl
  | agentError => left; rfl

lemma hFAA_append_false (xs ys : List BridgeOut)
    (h1 : hasFillerAfterAgentAudio xs = false)
    (h2 : xs.any isAgentAudioOut = false ∨ ys.any isFillerOut = false)
    (h3 : hasFillerAfterAgentAudio ys = false) :
    hasFillerAfterAgentAudio (xs ++ ys) = false := by
  induction xs with
  | nil => simpa using h3
  | cons o rest ih =>
    by_cases ho : isAgentAudioOut o = true
    · rw [List.cons_append, hFAA_cons_audio _ _ ho]
      rw [hFAA_cons_audio _ _ ho] at h1
      rcases h2 with h2 | h2
      · simp [List.any_cons, ho] at h2
      · rw [List.any_append, h1, h2]
        rfl
    · simp only [Bool.not_eq_true] at ho
      rw [List.cons_append, hFAA_cons_nonaudio _ _ ho]
      rw [hFAA_cons_nonaudio _ _ ho] at h1
      refine ih h1 ?_
      rcases h2 with h2 | h2
      · simp only [List.any_cons, ho, Bool.false_or] at h2
        exact Or.inl h2
      · exact Or.inr h2

/-- A single step's output segment never shows a filler frame after a real
agent audio frame (each step emits at most one Twilio frame). -/
lemma rev2Step_out_hFAA (s : Rev2State) (e : Rev2Event) :
    hasFillerAfterAgentAudio (rev2Step s e).2 = false := by
  cases e <;>
    simp only [rev2Step, rev2SendToTwilio] <;>
    (try split_ifs) <;>
    simp_all [hasFillerAfterAgentAudio, isAgentAudioOut_filler, isAgentAudioOut_agentMedia,
      isAgentAudioOut_toAgent]

/-- Across any run from a state satisfying the latch-pump invariant, the
trace never shows a filler frame after a real agent audio frame. -/
lemma rev2Run_noFillerAfter : ∀ (evs : List Rev2Event) (s : Rev2State),
    (s.gotFirstOpenAIAudio = true → s.silencePumpActive = false) →
    hasFillerAfterAgentAudio (rev2Run s evs).2 = false := by
  intro evs
  induction evs with
  | nil => intro s hInv; rfl
  | cons e rest ih =>
    intro s hInv
    have hInv' := rev2Step_inv s e hInv
    rw [rev2Run_cons]
    refine hFAA_append_false _ _ (rev2Step_out_hFAA s e) ?_ (ih _ hInv')
    rcases rev2Step_out_audio_latched s e hInv with h | ⟨hg', hp'⟩
    · exact Or.inl h
    · exact Or.inr (rev2Run_latched_noFiller rest _ hg' hp')

/-- The teardown invariant is preserved by every step. -/
lemma rev2Step_teardownInv (s : Rev2State) (e : Rev2Event)
    (h : rev2TeardownInv s) : rev2TeardownInv (rev2Step s e).1 := by
  obtain ⟨h1, h2, h3, h4, h5⟩ := h
  cases e <;>
    simp only [rev2Step, rev2TeardownInv] <;>
    (try split_ifs) <;>
    simp_all

/-- The teardown invariant is preserved by every run. -/
lemma rev2Run_teardownInv : ∀ (evs : List Rev2Event) (s : Rev2State),
    rev2TeardownInv s → rev2TeardownInv (rev2Run s evs).1 := by
  intro evs
  induction evs with
  | nil => intro s h; exact h
  | cons e rest ih =>
    intro s h
    rw [rev2Run_cons]
    exact ih _ (rev2Step_teardownInv s e h)

/-- A closed Twilio socket stays closed across every step. -/
lemma rev2Step_closed_absorbing (s : Rev2State) (e : Rev2Event)
    (h : s.twilioSock = SockState.closed) :
    (rev2Step s e).1.twilioSock = SockState.closed := by
  cases e <;>
    simp only [rev2Step] <;>
    (try split_ifs) <;>
    simp_all

/-- A closed Twilio socket stays closed across every run. -/
lemma rev2Run_closed_absorbing : ∀ (evs : List Rev2Event) (s : Rev2State),
    s.twilioSock = SockState.closed →
    ((rev2Run s evs).1).twilioSock = SockState.closed := by
  intro evs
  induction evs with
  | nil => intro s h; exact h
  | cons e rest ih =>
    intro s h
    rw [rev2Run_cons]
    exact ih _ (rev2Step_closed_absorbing s e h)

/-- C2: while no agent audio has arrived each pump tick emits exactly one
filler frame; the first agent audio frame sets the one-way latch and stops
the pump in the same step, before the frame is forwarded; once latched the
pump stays off; and no trace from call start ever shows a filler frame
after a real agent audio frame. -/
theorem C2_silence_pump :
    (∀ n : Nat,
      (rev2Run rev2PostStart (List.replicate n Rev2Event.pumpTick)).2
        = List.replicate n (BridgeOut.toTwilio (TwilioOut.mediaFiller ULAW_SILENCE_20MS))) ∧
    (∀ (s : Rev2State) (d : List Nat), s.gotFirstOpenAIAudio = false →
      (rev2Step s (Rev2Event.agentAudioDelta d)).1.gotFirstOpenAIAudio = true ∧
      (rev2Step s (Rev2Event.agentAudioDelta d)).1.silencePumpActive = false ∧
      (rev2Step s (Rev2Event.agentAudioDelta d)).2
        = if s.isOpen = true ∧ s.twilioSock = SockState.opened
          then [BridgeOut.toTwilio (TwilioOut.mediaAgent d)] else []) ∧
    (∀ (s : Rev2State) (e : Rev2Event),
      s.gotFirstOpenAIAudio = true → s.silencePumpActive = false →
      (rev2Step s e).1.gotFirstOpenAIAudio = true ∧
      (rev2Step s e).1.silencePumpActive = false) ∧
    (∀ evs : List Rev2Event,
      hasFillerAfterAgentAudio (rev2Run rev2PostStart evs).2 = false) := by
  refine ⟨?_, ?_, ?_, ?_⟩
  · intro n
    induction n with
    | zero => rfl
    | succ n ih =>
      rw [List.replicate_succ, rev2Run_cons,
        show rev2Step rev2PostStart Rev2Event.pumpTick
          = (rev2PostStart, [BridgeOut.toTwilio (TwilioOut.mediaFiller ULAW_SILENCE_20MS)])
          from rfl]
      simp only [List.cons_append, List.nil_append, ih, List.replicate_succ]
  · intro s d hg
    refine ⟨by simp [rev2Step, hg], by simp [rev2Step, hg], ?_⟩
    simp [rev2Step, hg, rev2SendToTwilio]
  · exact fun s e hg hp => rev2Step_preserves_latched s e hg hp
  · intro evs
    exact rev2Run_noFillerAfter evs rev2PostStart (fun h => absurd h (by decide))

/-- Witness for C2: three ticks pump three fillers; a concrete unlatched
state latches and stops the pump on an audio delta; a concrete latched
state stays latched; a concrete mixed trace shows no filler after audio. -/
theorem C2_silence_pump_witness :
    ((rev2Run rev2PostStart (List.replicate 3 Rev2Event.pumpTick)).2
        = List.replicate 3 (BridgeOut.toTwilio (TwilioOut.mediaFiller ULAW_SILENCE_20MS))) ∧
    (rev2PostStart.gotFirstOpenAIAudio = false ∧
     ((rev2Step rev2PostStart (Rev2Event.agentAudioDelta [5])).1.gotFirstOpenAIAudio = true ∧
      (rev2Step rev2PostStart (Rev2Event.agentAudioDelta [5])).1.silencePumpActive = false ∧
      (rev2Step rev2PostStart (Rev2Event.agentAudioDelta [5])).2
        = if rev2PostStart.isOpen = true ∧ rev2PostStart.twilioSock = SockState.opened
          then [BridgeOut.toTwilio (TwilioOut.mediaAgent [5])] else [])) ∧
    hasFillerAfterAgentAudio
      (rev2Run rev2PostStart
        [Rev2Event.pumpTick, Rev2Event.agentAudioDelta [5], Rev2Event.pumpTick]).2 = false :=
  ⟨C2_silence_pump.1 3,
   ⟨by decide, C2_silence_pump.2.1 rev2PostStart [5] (by decide)⟩,
   C2_silence_pump.2.2.2 [Rev2Event.pumpTick, Rev2Event.agentAudioDelta [5], Rev2Event.pumpTick]⟩

/-- C8: a second `stop`, or a second `close` delivery after `stop`+`close`,
changes neither the state nor the outputs; after teardown the agent socket
was closed exactly once and each timer cancelled exactly once; and on every
run each of those happens at most once. -/
theorem C8_idempotent_close :
    (∀ evs : List Rev2Event,
      rev2Run rev2PostStart
          (Rev2Event.twilioStop :: Rev2Event.twilioStop :: Rev2Event.twilioClose :: evs)
        = rev2Run rev2PostStart (Rev2Event.twilioStop :: Rev2Event.twilioClose :: evs)) ∧
    (∀ evs : List Rev2Event,
      rev2Run rev2PostStart
          (Rev2Event.twilioStop :: Rev2Event.twilioClose :: Rev2Event.twilioClose :: evs)
        = rev2Run rev2PostStart (Rev2Event.twilioStop :: Rev2Event.twilioClose :: evs)) ∧
    (∀ evs : List Rev2Event,
      (rev2Run rev2PostStart (Rev2Event.twilioStop :: Rev2Event.twilioClose :: evs)).1.agentCloseCalls = 1 ∧
      (rev2Run rev2PostStart (Rev2Event.twilioStop :: Rev2Event.twilioClose :: evs)).1.keepaliveClearCalls = 1 ∧
      (rev2Run rev2PostStart (Rev2Event.twilioStop :: Rev2Event.twilioClose :: evs)).1.pumpClearCalls = 1) ∧
    (∀ evs : List Rev2Event,
      (rev2Run rev2PostStart evs).1.agentCloseCalls ≤ 1 ∧
      (rev2Run rev2PostStart evs).1.keepaliveClearCalls ≤ 1 ∧
      (rev2Run rev2PostStart evs).1.pumpClearCalls ≤ 1) := by
  refine ⟨fun evs => rfl, fun evs => rfl, ?_, ?_⟩
  · intro evs
    have hfst : (rev2Run rev2PostStart (Rev2Event.twilioStop :: Rev2Event.twilioClose :: evs)).1
        = (rev2Run (rev2Step (rev2Step rev2PostStart Rev2Event.twilioStop).1 Rev2Event.twilioClose).1 evs).1 := rfl
    rw [hfst]
    have hInv := rev2Run_teardownInv evs
      (rev2Step (rev2Step rev2PostStart Rev2Event.twilioStop).1 Rev2Event.twilioClose).1
      (by simp only [rev2TeardownInv]; decide)
    have hsock := rev2Run_closed_absorbing evs
      (rev2Step (rev2Step rev2PostStart Rev2Event.twilioStop).1 Rev2Event.twilioClose).1
      (by decide)
    obtain ⟨h1, h2, h3, h4, h5⟩ := hInv
    refine ⟨by rw [h3, if_pos hsock], by rw [h4, if_pos hsock], ?_⟩
    rw [h5, if_neg ?_]
    rw [(h1 hsock).2.1]
    simp
  · intro evs
    have hInv := rev2Run_teardownInv evs rev2PostStart (by simp only [rev2TeardownInv]; decide)
    obtain ⟨h1, h2, h3, h4, h5⟩ := hInv
    refine ⟨?_, ?_, ?_⟩
    · rw [h3]; split_ifs <;> omega
    · rw [h4]; split_ifs <;> omega
    · rw [h5]; split_ifs <;> omega

/-! ### Claim theorems over the codec, packetizer and first revision -/

/-- C6: for every signed 16-bit sample (including -32768) the encoder
clamps the magnitude saturating (never wrapping) before compression, its
bias constant and segment boundaries match the standard mu-law table
exactly, and it produces a single output byte. -/
theorem C6_mulaw_encoder (s : Int) (hlo : -32768 ≤ s) (hhi : s ≤ 32767) :
    pcm16ToMuLawByte s = muLawReference (if s < 0 then 0x80 else 0) (min s.natAbs 8191) ∧
    muLawExpLoop 7 0x4000 (((min s.natAbs 8191 : Nat) : Int) + 0x84)
      = standardSeg (min s.natAbs 8191 + standardBias) ∧
    pcm16ToMuLawByte s < 256 := by
  obtain ⟨q, r, hq, hr, hqr⟩ : ∃ q r, q < 16 ∧ r < 512 ∧ min s.natAbs 8191 = 512 * q + r :=
    ⟨min s.natAbs 8191 / 512, min s.natAbs 8191 % 512, by omega, by omega, by omega⟩
  have hball := muLawAssembleBall q hq r hr
  rw [← hqr] at hball
  rcases lt_or_le s 0 with hneg | hpos
  · have hred := pcm16ToMuLawByte_neg s hlo hneg
    refine ⟨?_, hball.2.2.1, ?_⟩
    · rw [hred, if_pos hneg]
      exact hball.2.1
    · rw [hred, hball.2.1]
      exact hball.2.2.2.2
  · have hred := pcm16ToMuLawByte_nonneg s hpos hhi
    refine ⟨?_, hball.2.2.1, ?_⟩
    · rw [hred, if_neg (not_lt.2 hpos)]
      exact hball.1
    · rw [hred, hball.1]
      exact hball.2.2.2.1

/-- Witness for C6 at the extreme sample -32768. -/
theorem C6_mulaw_encoder_witness :
    (-32768 : Int) ≤ -32768 ∧ (-32768 : Int) ≤ 32767 ∧
    (pcm16ToMuLawByte (-32768)
        = muLawReference (if (-32768 : Int) < 0 then 0x80 else 0)
            (min (Int.natAbs (-32768)) 8191) ∧
     muLawExpLoop 7 0x4000 (((min (Int.natAbs (-32768)) 8191 : Nat) : Int) + 0x84)
        = standardSeg (min (Int.natAbs (-32768)) 8191 + standardBias) ∧
     pcm16ToMuLawByte (-32768) < 256) :=
  ⟨by norm_num, by norm_num, C6_mulaw_encoder (-32768) (by norm_num) (by norm_num)⟩

lemma chunksDrop_spec (frameSize : Nat) (hfs : 0 < frameSize) :
    ∀ (k : Nat) (buf : List Nat) (r : Nat), buf.length = k * frameSize + r → r < frameSize →
      (chunksDropRemainder frameSize buf).length = k ∧
      (∀ c ∈ chunksDropRemainder frameSize buf, c.length = frameSize) ∧
      (chunksDropRemainder frameSize buf).flatten = buf.take (k * frameSize) := by
  intro k
  induction k with
  | zero =>
    intro buf r hlen hr
    rw [chunksDropRemainder]
    rw [dif_neg (by omega)]
    simp
  | succ k ih =>
    intro buf r hlen hr
    rw [Nat.succ_mul] at hlen
    rw [chunksDropRemainder, dif_pos ⟨hfs, by omega⟩]
    have hdrop : (buf.drop frameSize).length = k * frameSize + r := by
      simp only [List.length_drop]
      omega
    obtain ⟨ih1, ih2, ih3⟩ := ih (buf.drop frameSize) r hdrop hr
    refine ⟨by simp [ih1], ?_, ?_⟩
    · intro c hc
      rcases List.mem_cons.1 hc with hc | hc
      · subst hc
        simp only [List.length_take]
        omega
      · exact ih2 c hc
    · simp only [List.flatten_cons, ih3]
      rw [show (k + 1) * frameSize = frameSize + k * frameSize from by ring]
      rw [List.take_add]

lemma chunksKeep_spec (frameSize : Nat) (hfs : 0 < frameSize) :
    ∀ (k : Nat) (buf : List Nat) (r : Nat), buf.length = k * frameSize + r → r < frameSize →
      0 < r →
      chunksKeepRemainder frameSize buf
        = chunksDropRemainder frameSize buf ++ [buf.drop (k * frameSize)] ∧
      (buf.drop (k * frameSize)).length = r := by
  intro k
  induction k with
  | zero =>
    intro buf r hlen hr hrpos
    have hne : buf ≠ [] := by intro hnil; rw [hnil] at hlen; simp at hlen; omega
    have hdropnil : buf.drop frameSize = [] := List.drop_eq_nil_of_le (by omega)
    rw [chunksKeepRemainder, dif_pos ⟨hfs, hne⟩, hdropnil,
      chunksKeepRemainder, dif_neg (by simp),
      chunksDropRemainder, dif_neg (by omega)]
    constructor
    · simp only [List.nil_append, Nat.zero_mul, List.drop_zero]
      rw [List.take_of_length_le (by omega)]
    · simp only [Nat.zero_mul, List.drop_zero]
      omega
  | succ k ih =>
    intro buf r hlen hr hrpos
    rw [Nat.succ_mul] at hlen
    rw [chunksKeepRemainder, dif_pos ⟨hfs, by intro hnil; rw [hnil] at hlen; simp at hlen; omega⟩]
    rw [chunksDropRemainder, dif_pos ⟨hfs, by omega⟩]
    have hdrop : (buf.drop frameSize).length = k * frameSize + r := by
      simp only [List.length_drop]
      omega
    obtain ⟨ih1, ih2⟩ := ih (buf.drop frameSize) r hdrop hr hrpos
    have hmul : (k + 1) * frameSize = frameSize + k * frameSize := by ring
    constructor
    · simp only [List.cons_append, List.cons.injEq, true_and]
      rw [ih1, List.drop_drop, hmul]
    · rw [hmul, ← List.drop_drop]
      exact ih2

/-- C3 amended: the remainder-dropping packetizer (`sendUlawFrames`, frame
size 160) yields exactly `k` frames of exactly the frame size in original
order with the remainder dropped; the `sendToTwilio` variant (frame size
320) instead emits the final remainder as a short partial frame. -/
theorem C3_packetize_amended (frameSize k r : Nat) (buf : List Nat)
    (hfs : 0 < frameSize) (hlen : buf.length = k * frameSize + r) (hr : r < frameSize) :
    (chunksDropRemainder frameSize buf).length = k ∧
    (∀ c ∈ chunksDropRemainder frameSize buf, c.length = frameSize) ∧
    (chunksDropRemainder frameSize buf).flatten = buf.take (k * frameSize) ∧
    (0 < r →
      chunksKeepRemainder frameSize buf
        = chunksDropRemainder frameSize buf ++ [buf.drop (k * frameSize)] ∧
      (buf.drop (k * frameSize)).length = r) := by
  obtain ⟨h1, h2, h3⟩ := chunksDrop_spec frameSize hfs k buf r hlen hr
  exact ⟨h1, h2, h3, fun hrpos => chunksKeep_spec frameSize hfs k buf r hlen hr hrpos⟩

/-- C3 counterexample: on a 1-byte buffer the 320-byte packetizer emits one
partial frame where the claim requires zero frames. -/
theorem C3_counterexample :
    sendToTwilioFrames [255] = [[255]] ∧
    ¬ (sendToTwilioFrames [255]).length = ([255] : List Nat).length / 320 := by
  have h : sendToTwilioFrames [255] = [[255]] := by
    rw [sendToTwilioFrames, chunksKeepRemainder, dif_pos (by simp)]
    rw [show List.drop 320 [255] = ([] : List Nat) from by simp]
    rw [chunksKeepRemainder, dif_neg (by simp)]
    simp
  exact ⟨h, by rw [h]; simp⟩

/-- Witness for C3 at frame size 2 and buffer `[1,2,3,4,5]` (k = 2, r = 1). -/
theorem C3_packetize_amended_witness :
    0 < 2 ∧ ([1, 2, 3, 4, 5] : List Nat).length = 2 * 2 + 1 ∧ 1 < 2 ∧
    ((chunksDropRemainder 2 [1, 2, 3, 4, 5]).length = 2 ∧
     (∀ c ∈ chunksDropRemainder 2 [1, 2, 3, 4, 5], c.length = 2) ∧
     (chunksDropRemainder 2 [1, 2, 3, 4, 5]).flatten
        = ([1, 2, 3, 4, 5] : List Nat).take (2 * 2) ∧
     (0 < 1 →
       chunksKeepRemainder 2 [1, 2, 3, 4, 5]
         = chunksDropRemainder 2 [1, 2, 3, 4, 5]
            ++ [([1, 2, 3, 4, 5] : List Nat).drop (2 * 2)] ∧
       (([1, 2, 3, 4, 5] : List Nat).drop (2 * 2)).length = 1)) :=
  ⟨by decide, by decide, by decide,
   C3_packetize_amended 2 2 1 [1, 2, 3, 4, 5] (by decide) (by decide) (by decide)⟩

/-- C5: mu-law decode is total on all 256 byte values with output in the
signed 16-bit range, and decoding a buffer yields one sample per byte. -/
theorem C5_ulawDecode_total :
    (∀ b : Fin 256, -32768 ≤ ulawDecode b.val ∧ ulawDecode b.val ≤ 32767) ∧
    (∀ buf : List Nat, (muLawToPCM16 buf).length = buf.length) := by
  refine ⟨by decide, fun buf => by simp [muLawToPCM16]⟩

/-- C7: resampling at equal rates is the identity, for any rate and any
sample sequence including the empty one. -/
theorem C7_resample_identity (samples : List Int) (r : Nat) :
    linearResamplePCM16 samples r r = samples := by
  simp [linearResamplePCM16]

/-- C10: the filler frame is 160 bytes of 0xFF, exactly 20 ms at 8 kHz mono
8-bit, and each byte decodes to the linear sample 0. -/
theorem C10_silence_frame :
    ULAW_SILENCE_20MS.length = 160 ∧
    (∀ b ∈ ULAW_SILENCE_20MS, b = 0xFF) ∧
    160 = 8000 * 20 / 1000 ∧
    ulawDecode 0xFF = 0 ∧
    muLawToPCM16 ULAW_SILENCE_20MS = List.replicate 160 0 := by
  refine ⟨by decide, by decide, by decide, by decide, by decide⟩

/-- C1, evaluated at the failing run: forty consecutive caller media frames
with no intervening agent completion event make the first revision send two
`response.create` generation requests, the second while the first is still
outstanding; no flag guards the send (the first revision has no such flag,
and the second revision's `inResponse` is written but never read). -/
theorem C1_threshold_overlap_eval :
    countResponseCreate
      (rev1Run rev1PostStart (List.replicate 40 (Rev1Event.twilioMedia []))).2 = 2 ∧
    countResponseCreate
      (rev1Run rev1PostStart (List.replicate 39 (Rev1Event.twilioMedia []))).2 = 1 := by
  refine ⟨by decide, by decide⟩

/-- C9: an unparseable inbound message on either leg, in either revision,
leaves the per-call state (stream id, commit counter, flags, timers)
unchanged, emits nothing, and the remaining messages are processed exactly
as if it had not occurred. -/
theorem C9_malformed_dropped :
    (∀ (s : Rev2State) (rest : List Rev2Event),
        rev2Run s (Rev2Event.twilioMalformed :: rest) = rev2Run s rest) ∧
    (∀ (s : Rev2State) (rest : List Rev2Event),
        rev2Run s (Rev2Event.agentMalformed :: rest) = rev2Run s rest) ∧
    (∀ (s : Rev1State) (rest : List Rev1Event),
        rev1Run s (Rev1Event.twilioMalformed :: rest) = rev1Run s rest) ∧
    (∀ (s : Rev1State) (rest : List Rev1Event),
        rev1Run s (Rev1Event.agentMalformed :: rest) = rev1Run s rest) := by
  refine ⟨fun s rest => ?_, fun s rest => ?_, fun s rest => ?_, fun s rest => ?_⟩ <;>
    simp [rev2Run, rev2Step, rev1Run, rev1Step]

/-! ### Resampler: correctness of the binary64 rounding model and
exactness on the ratios the program uses -/

theorem log2Fuel_spec : ∀ (fuel n : Nat), 0 < n → n ≤ fuel →
    2 ^ log2Fuel fuel n ≤ n ∧ n < 2 ^ (log2Fuel fuel n + 1) := by
  intro fuel
  induction fuel with
  | zero => intro n h1 h2; omega
  | succ fuel ih =>
    intro n h1 h2
    rw [log2Fuel]
    by_cases h : 2 ≤ n
    · rw [if_pos h]
      obtain ⟨ha, hb⟩ := ih (n / 2) (by omega) (by omega)
      rw [pow_succ] at hb
      constructor
      · rw [pow_succ]
        omega
      · rw [pow_succ, pow_succ]
        omega
    · rw [if_neg h]
      simp only [pow_zero, pow_one]
      omega

theorem floorLog2_spec (a : ℚ) (ha : 0 < a) :
    (2 : ℚ) ^ floorLog2 a ≤ a ∧ a < 2 ^ (floorLog2 a + 1) := by
  have hnum : 0 < a.num := Rat.num_pos.2 ha
  have hp0 : 0 < a.num.toNat := by omega
  have hd0 : 0 < a.den := a.pos
  have hae : a = (a.num.toNat : ℚ) / (a.den : ℚ) := by
    rw [show ((a.num.toNat : ℕ) : ℚ) = ((a.num : ℤ) : ℚ) by
      exact_mod_cast congrArg (fun z : ℤ => (z : ℚ)) (Int.toNat_of_nonneg (le_of_lt hnum))]
    exact (Rat.num_div_den a).symm
  have hdQ : (0 : ℚ) < (a.den : ℚ) := by exact_mod_cast hd0
  obtain ⟨hp1, hp2⟩ := log2Fuel_spec a.num.toNat a.num.toNat hp0 le_rfl
  obtain ⟨hd1, hd2⟩ := log2Fuel_spec a.den a.den hd0 le_rfl
  simp only [floorLog2]
  set lp : ℕ := log2Fuel a.num.toNat a.num.toNat with hlp
  set ld : ℕ := log2Fuel a.den a.den with hld
  have hlow : (2 : ℚ) ^ ((lp : ℤ) - (ld : ℤ) - 1) < a := by
    rw [hae, lt_div_iff₀ hdQ]
    calc (2 : ℚ) ^ ((lp : ℤ) - (ld : ℤ) - 1) * (a.den : ℚ)
        < 2 ^ ((lp : ℤ) - (ld : ℤ) - 1) * 2 ^ ((ld : ℤ) + 1) := by
          refine mul_lt_mul_of_pos_left ?_ (zpow_pos (by norm_num) _)
          rw [show ((ld : ℤ) + 1) = ((ld + 1 : ℕ) : ℤ) by push_cast; ring, zpow_natCast]
          exact_mod_cast hd2
      _ = 2 ^ ((lp : ℤ)) := by
          rw [← zpow_add₀ (by norm_num : (2 : ℚ) ≠ 0)]
          congr 1
          ring
      _ ≤ (a.num.toNat : ℚ) := by
          rw [zpow_natCast]
          exact_mod_cast hp1
  have hhigh : a < (2 : ℚ) ^ ((lp : ℤ) - (ld : ℤ) + 1) := by
    rw [hae, div_lt_iff₀ hdQ]
    calc (a.num.toNat : ℚ) < 2 ^ ((lp : ℤ) + 1) := by
          rw [show ((lp : ℤ) + 1) = ((lp + 1 : ℕ) : ℤ) by push_cast; ring, zpow_natCast]
          exact_mod_cast hp2
      _ = 2 ^ ((lp : ℤ) - (ld : ℤ) + 1) * 2 ^ ((ld : ℤ)) := by
          rw [← zpow_add₀ (by norm_num : (2 : ℚ) ≠ 0)]
          congr 1
          ring
      _ ≤ 2 ^ ((lp : ℤ) - (ld : ℤ) + 1) * (a.den : ℚ) := by
          refine mul_le_mul_of_nonneg_left ?_ (le_of_lt (zpow_pos (by norm_num) _))
          rw [zpow_natCast]
          exact_mod_cast hd1
  split_ifs with hc1 hc2
  · constructor
    · exact le_of_lt hlow
    · rw [sub_add_cancel]
      exact hc1
  · exact absurd hc2 (not_le.2 hhigh)
  · exact ⟨not_lt.1 hc1, hhigh⟩

theorem roundQ_zero : roundQ 0 = 0 := by
  simp [roundQ]

theorem roundQ_eq_self (z j : ℤ) (hz : |z| < 2 ^ 53) :
    roundQ ((z : ℚ) * 2 ^ j) = (z : ℚ) * 2 ^ j := by
  by_cases hz0 : z = 0
  · subst hz0
    simp [roundQ]
  · have h2j : (0 : ℚ) < 2 ^ j := zpow_pos (by norm_num) j
    have hq0 : (z : ℚ) * 2 ^ j ≠ 0 :=
      mul_ne_zero (Int.cast_ne_zero.2 hz0) (ne_of_gt h2j)
    have habs : |(z : ℚ) * 2 ^ j| = ((|z| : ℤ) : ℚ) * 2 ^ j := by
      rw [abs_mul, abs_of_pos h2j, Int.cast_abs]
    have ha : (0 : ℚ) < |(z : ℚ) * 2 ^ j| := abs_pos.2 hq0
    obtain ⟨hfl1, hfl2⟩ := floorLog2_spec _ ha
    set e : ℤ := floorLog2 |(z : ℚ) * 2 ^ j| with he
    have hzQ : ((|z| : ℤ) : ℚ) < 2 ^ 53 := by exact_mod_cast hz
    have hej : e ≤ j + 52 := by
      by_contra hcon
      push_neg at hcon
      have h1 : (2 : ℚ) ^ (j + 53) ≤ 2 ^ e :=
        zpow_le_zpow_right₀ (by norm_num) (by omega)
      have h2 : |(z : ℚ) * 2 ^ j| < 2 ^ (j + 53) := by
        rw [habs]
        calc ((|z| : ℤ) : ℚ) * 2 ^ j < 2 ^ 53 * 2 ^ j :=
              mul_lt_mul_of_pos_right hzQ h2j
          _ = 2 ^ (j + 53) := by
              rw [← zpow_natCast (2 : ℚ) 53, ← zpow_add₀ (by norm_num : (2 : ℚ) ≠ 0)]
              congr 1
              push_cast
              ring
      exact absurd (le_trans h1 hfl1) (not_le.2 h2)
    simp only [roundQ, if_neg hq0]
    set k : ℕ := (j + 52 - e).toNat with hk
    have hkk : (k : ℤ) = j + 52 - e := Int.toNat_of_nonneg (by omega)
    have hm : |(z : ℚ) * 2 ^ j| * 2 ^ ((52 : ℤ) - e) = ((|z| * 2 ^ k : ℤ) : ℚ) := by
      rw [habs]
      push_cast
      rw [mul_assoc, ← zpow_natCast (2 : ℚ) k, ← zpow_add₀ (by norm_num : (2 : ℚ) ≠ 0)]
      congr 2
      omega
    rw [hm]
    simp only [Int.floor_intCast, sub_self]
    rw [if_pos (by norm_num : (0 : ℚ) < 1 / 2)]
    have hsz : (if (z : ℚ) * 2 ^ j < 0 then (-1 : ℚ) else 1) * ((|z| : ℤ) : ℚ) = (z : ℚ) := by
      by_cases hneg : (z : ℚ) * 2 ^ j < 0
      · have hzneg : z < 0 := by
          by_contra hge
          push_neg at hge
          have hzpos : (0 : ℚ) < (z : ℚ) := by
            exact_mod_cast lt_of_le_of_ne hge (Ne.symm hz0)
          exact absurd (mul_pos hzpos h2j) (not_lt.2 (le_of_lt hneg))
        rw [if_pos hneg, abs_of_neg hzneg]
        push_cast
        ring
      · have hzpos : 0 < z := by
          rcases lt_trichotomy z 0 with h | h | h
          · exfalso
            have : (z : ℚ) < 0 := by exact_mod_cast h
            exact hneg (mul_neg_of_neg_of_pos this h2j)
          · exact absurd h hz0
          · exact h
        rw [if_neg hneg, abs_of_pos hzpos, one_mul]
    calc (if (z : ℚ) * 2 ^ j < 0 then (-1 : ℚ) else 1) * ((|z| * 2 ^ k : ℤ) : ℚ) * 2 ^ (e - 52)
        = ((if (z : ℚ) * 2 ^ j < 0 then (-1 : ℚ) else 1) * ((|z| : ℤ) : ℚ))
            * (((2 : ℚ) ^ (k : ℤ)) * 2 ^ (e - 52)) := by
          push_cast
          rw [zpow_natCast]
          ring
      _ = (z : ℚ) * 2 ^ j := by
          rw [hsz, ← zpow_add₀ (by norm_num : (2 : ℚ) ≠ 0)]
          congr 2
          omega

theorem roundQ_intCast (z : ℤ) (hz : |z| < 2 ^ 53) : roundQ (z : ℚ) = (z : ℚ) := by
  have h := roundQ_eq_self z 0 hz
  simpa using h

theorem roundQ_natCast (n : ℕ) (hn : n < 2 ^ 53) : roundQ (n : ℚ) = (n : ℚ) := by
  have h := roundQ_intCast (n : ℤ) (by rw [abs_of_nonneg (Int.ofNat_nonneg n)]; exact_mod_cast hn)
  rw [Int.cast_natCast] at h
  exact h

theorem roundQ_int_half (z : ℤ) (hz : |z| < 2 ^ 53) :
    roundQ ((z : ℚ) / 2) = (z : ℚ) / 2 := by
  have h := roundQ_eq_self z (-1) hz
  rw [zpow_neg_one, ← div_eq_mul_inv] at h
  exact h

theorem roundQ_one : roundQ 1 = 1 := by
  have h := roundQ_intCast 1 (by norm_num)
  simpa using h

theorem roundQ_one_half : roundQ (1 / 2) = 1 / 2 := by
  have h := roundQ_int_half 1 (by norm_num)
  simpa using h

theorem getD_abs_le (input : List Int) (hs : ∀ x ∈ input, -32768 ≤ x ∧ x ≤ 32767)
    (k : ℕ) : |input.getD k 0| ≤ 32768 := by
  by_cases hk : k < input.length
  · rw [List.getD_eq_getElem _ _ hk]
    have h := hs _ (List.getElem_mem hk)
    rw [abs_le]
    omega
  · rw [List.getD_eq_default _ _ (by omega)]
    norm_num

theorem qhalf_floor_toNat (i : ℕ) : (⌊(i : ℚ) / 2⌋).toNat = i / 2 := by
  rw [show ((2 : ℚ)) = ((2 : ℕ) : ℚ) by norm_num, Int.floor_toNat]
  exact Rat.natFloor_natCast_div_natCast _ _

theorem even_half_cast (i : ℕ) (h : i % 2 = 0) : (i : ℚ) / 2 = ((i / 2 : ℕ) : ℚ) := by
  have h2 : (i : ℚ) = ((i / 2 : ℕ) : ℚ) * 2 := by
    exact_mod_cast congrArg (fun n : ℕ => (n : ℚ)) (by omega : i = (i / 2) * 2)
  rw [h2, mul_div_cancel_right₀ _ (by norm_num : (2 : ℚ) ≠ 0)]

theorem odd_half_cast (i : ℕ) (h : i % 2 = 1) :
    (i : ℚ) / 2 = ((i / 2 : ℕ) : ℚ) + 1 / 2 := by
  have h2 : (i : ℚ) = ((i / 2 : ℕ) : ℚ) * 2 + 1 := by
    exact_mod_cast congrArg (fun n : ℕ => (n : ℚ)) (by omega : i = (i / 2) * 2 + 1)
  rw [h2]
  ring

theorem resample_double_exact (input : List Int) (inRate outRate : Nat)
    (h1 : 0 < inRate)
    (hdbl : outRate = 2 * inRate ∨ inRate = 2 * outRate)
    (hIn : inRate ≤ 2 ^ 50) (hlen : input.length ≤ 2 ^ 50)
    (hs : ∀ x ∈ input, -32768 ≤ x ∧ x ≤ 32767) :
    linearResamplePCM16 input inRate outRate = resampleExactArith input inRate outRate := by
  have hgetD : ∀ k : ℕ, |input.getD k 0| ≤ 32768 := getD_abs_le input hs
  rcases hdbl with hA | hB
  · -- upsampling: outRate = 2 * inRate, ratio = 2
    subst hA
    have hne : inRate ≠ 2 * inRate := by omega
    have hinQ : ((inRate : ℕ) : ℚ) ≠ 0 := by
      exact_mod_cast h1.ne'
    have hrQ : ((2 * inRate : ℕ) : ℚ) / ((inRate : ℕ) : ℚ) = 2 := by
      rw [div_eq_iff hinQ]
      push_cast
      ring
    have h2c : roundQ 2 = 2 := by
      have h := roundQ_natCast 2 (by norm_num)
      norm_num at h
      exact h
    have hratio : jsDiv (toDouble (2 * inRate)) (toDouble inRate) = 2 := by
      rw [toDouble, toDouble, roundQ_natCast _ (by omega), roundQ_natCast _ (by omega),
        jsDiv, hrQ]
      exact h2c
    have hlenMul : jsMul (toDouble input.length) 2 = (input.length : ℚ) * 2 := by
      rw [toDouble, roundQ_natCast _ (by omega), jsMul,
        show ((input.length : ℕ) : ℚ) * 2 = ((input.length * 2 : ℕ) : ℚ) by push_cast; ring]
      exact roundQ_natCast _ (by omega)
    have hLen : (⌊(input.length : ℚ) * 2⌋).toNat = input.length * 2 := by
      rw [show ((input.length : ℕ) : ℚ) * 2 = ((input.length * 2 : ℕ) : ℚ) by push_cast; ring,
        Int.floor_natCast, Int.toNat_natCast]
    simp only [linearResamplePCM16, resampleExactArith, if_neg hne]
    simp only [hratio, hrQ, hlenMul, hLen]
    refine List.map_congr_left ?_
    intro i hi
    simp only [List.mem_range] at hi
    have hiBound : i < 2 ^ 51 := by omega
    have hdi : toDouble i = (i : ℚ) := by
      rw [toDouble]
      exact roundQ_natCast _ (by omega)
    have hsrc : jsDiv (toDouble i) 2 = (i : ℚ) / 2 := by
      rw [hdi, jsDiv]
      have h2 := roundQ_int_half (i : ℤ) (by
        rw [abs_of_nonneg (Int.ofNat_nonneg i)]
        exact_mod_cast hiBound.trans (by norm_num))
      rw [Int.cast_natCast] at h2
      exact h2
    simp only [hsrc, qhalf_floor_toNat]
    rcases Nat.even_or_odd i with hpar | hpar
    · -- even index: fractional weight 0
      have hmod : i % 2 = 0 := Nat.even_iff.1 hpar
      have hhalf : (i : ℚ) / 2 = ((i / 2 : ℕ) : ℚ) := even_half_cast i hmod
      simp only [hhalf]
      have hf : jsSub ((i / 2 : ℕ) : ℚ) ((i / 2 : ℕ) : ℚ) = 0 := by
        rw [jsSub, sub_self, roundQ_zero]
      have h1f : jsSub 1 0 = 1 := by
        rw [jsSub, sub_zero, roundQ_one]
      have hmulA : jsMul (input.getD (i / 2) 0 : ℚ) 1 = (input.getD (i / 2) 0 : ℚ) := by
        rw [jsMul, mul_one]
        exact roundQ_intCast _ (lt_of_le_of_lt (hgetD _) (by norm_num))
      have hmulB :
          jsMul (input.getD (min (i / 2 + 1) (input.length - 1)) 0 : ℚ) 0 = 0 := by
        rw [jsMul, mul_zero, roundQ_zero]
      have haddA : jsAdd (input.getD (i / 2) 0 : ℚ) 0 = (input.getD (i / 2) 0 : ℚ) := by
        rw [jsAdd, add_zero]
        exact roundQ_intCast _ (lt_of_le_of_lt (hgetD _) (by norm_num))
      rw [hf, h1f, hmulA, hmulB, haddA, sub_self]
      congr 1
      ring
    · -- odd index: fractional weight 1/2
      have hmod : i % 2 = 1 := Nat.odd_iff.1 hpar
      have hhalf : (i : ℚ) / 2 = ((i / 2 : ℕ) : ℚ) + 1 / 2 := odd_half_cast i hmod
      have hfe : (i : ℚ) / 2 - ((i / 2 : ℕ) : ℚ) = 1 / 2 := by
        rw [hhalf]
        ring
      have hf : jsSub ((i : ℚ) / 2) ((i / 2 : ℕ) : ℚ) = 1 / 2 := by
        rw [jsSub, hfe, roundQ_one_half]
      have h1f : jsSub 1 (1 / 2) = 1 / 2 := by
        rw [jsSub, show (1 : ℚ) - 1 / 2 = 1 / 2 by ring, roundQ_one_half]
      have hmulA : jsMul (input.getD (i / 2) 0 : ℚ) (1 / 2)
          = (input.getD (i / 2) 0 : ℚ) / 2 := by
        rw [jsMul, show (input.getD (i / 2) 0 : ℚ) * (1 / 2)
          = (input.getD (i / 2) 0 : ℚ) / 2 by ring]
        exact roundQ_int_half _ (lt_of_le_of_lt (hgetD _) (by norm_num))
      have hmulB : jsMul (input.getD (min (i / 2 + 1) (input.length - 1)) 0 : ℚ) (1 / 2)
          = (input.getD (min (i / 2 + 1) (input.length - 1)) 0 : ℚ) / 2 := by
        rw [jsMul, show (input.getD (min (i / 2 + 1) (input.length - 1)) 0 : ℚ) * (1 / 2)
          = (input.getD (min (i / 2 + 1) (input.length - 1)) 0 : ℚ) / 2 by ring]
        exact roundQ_int_half _ (lt_of_le_of_lt (hgetD _) (by norm_num))
      have haddA : jsAdd ((input.getD (i / 2) 0 : ℚ) / 2)
          ((input.getD (min (i / 2 + 1) (input.length - 1)) 0 : ℚ) / 2)
          = (input.getD (i / 2) 0 : ℚ) / 2
            + (input.getD (min (i / 2 + 1) (input.length - 1)) 0 : ℚ) / 2 := by
        have hsum : (input.getD (i / 2) 0 : ℚ) / 2
            + (input.getD (min (i / 2 + 1) (input.length - 1)) 0 : ℚ) / 2
          = ((input.getD (i / 2) 0 + input.getD (min (i / 2 + 1) (input.length - 1)) 0 : ℤ) : ℚ)
              / 2 := by
          push_cast
          ring
        have hsb : |input.getD (i / 2) 0
            + input.getD (min (i / 2 + 1) (input.length - 1)) 0| < 2 ^ 53 := by
          have ha := hgetD (i / 2)
          have hb := hgetD (min (i / 2 + 1) (input.length - 1))
          have htr := abs_add (input.getD (i / 2) 0)
            (input.getD (min (i / 2 + 1) (input.length - 1)) 0)
          have hlt : |input.getD (i / 2) 0
              + input.getD (min (i / 2 + 1) (input.length - 1)) 0| ≤ 65536 := by omega
          exact lt_of_le_of_lt hlt (by norm_num)
        rw [jsAdd, hsum, roundQ_int_half _ hsb]
      rw [hf, h1f, hmulA, hmulB, haddA, hfe]
      congr 1
      ring
  · -- downsampling: inRate = 2 * outRate, ratio = 1/2
    subst hB
    have hout : 0 < outRate := by omega
    have hne : 2 * outRate ≠ outRate := by omega
    have h2oQ : ((2 * outRate : ℕ) : ℚ) ≠ 0 := by
      have hpos : (0 : ℕ) < 2 * outRate := by omega
      exact_mod_cast hpos.ne'
    have hrQ : ((outRate : ℕ) : ℚ) / ((2 * outRate : ℕ) : ℚ) = 1 / 2 := by
      rw [div_eq_div_iff h2oQ (by norm_num : (2 : ℚ) ≠ 0)]
      push_cast
      ring
    have hratio : jsDiv (toDouble outRate) (toDouble (2 * outRate)) = 1 / 2 := by
      rw [toDouble, toDouble, roundQ_natCast _ (by omega), roundQ_natCast _ (by omega),
        jsDiv, hrQ, roundQ_one_half]
    have hlenMul : jsMul (toDouble input.length) (1 / 2) = (input.length : ℚ) / 2 := by
      rw [toDouble, roundQ_natCast _ (by omega), jsMul,
        show ((input.length : ℕ) : ℚ) * (1 / 2) = (((input.length : ℕ) : ℤ) : ℚ) / 2 by
          push_cast; ring]
      rw [roundQ_int_half _ (by
        rw [abs_of_nonneg (Int.ofNat_nonneg input.length)]
        exact_mod_cast lt_of_le_of_lt hlen (by norm_num))]
      push_cast
      ring
    have hlenExact : (input.length : ℚ) * (1 / 2) = (input.length : ℚ) / 2 := by ring
    simp only [linearResamplePCM16, resampleExactArith, if_neg hne]
    simp only [hratio, hrQ, hlenMul, hlenExact, qhalf_floor_toNat]
    refine List.map_congr_left ?_
    intro i hi
    simp only [List.mem_range] at hi
    have hiBound : i < 2 ^ 50 := by omega
    have hdi : toDouble i = (i : ℚ) := by
      rw [toDouble]
      exact roundQ_natCast _ (by omega)
    have hsrcQ : (i : ℚ) / (1 / 2) = ((2 * i : ℕ) : ℚ) := by
      rw [div_eq_iff (by norm_num : (1 / 2 : ℚ) ≠ 0)]
      push_cast
      ring
    have hsrc : jsDiv (toDouble i) (1 / 2) = ((2 * i : ℕ) : ℚ) := by
      rw [hdi, jsDiv, hsrcQ]
      exact roundQ_natCast _ (by omega)
    simp only [hsrc, hsrcQ, Int.floor_natCast, Int.toNat_natCast]
    have hf : jsSub ((2 * i : ℕ) : ℚ) ((2 * i : ℕ) : ℚ) = 0 := by
      rw [jsSub, sub_self, roundQ_zero]
    have h1f : jsSub 1 0 = 1 := by
      rw [jsSub, sub_zero, roundQ_one]
    have hmulA : jsMul (input.getD (2 * i) 0 : ℚ) 1 = (input.getD (2 * i) 0 : ℚ) := by
      rw [jsMul, mul_one]
      exact roundQ_intCast _ (lt_of_le_of_lt (hgetD _) (by norm_num))
    have hmulB :
        jsMul (input.getD (min (2 * i + 1) (input.length - 1)) 0 : ℚ) 0 = 0 := by
      rw [jsMul, mul_zero, roundQ_zero]
    have haddA : jsAdd (input.getD (2 * i) 0 : ℚ) 0 = (input.getD (2 * i) 0 : ℚ) := by
      rw [jsAdd, add_zero]
      exact roundQ_intCast _ (lt_of_le_of_lt (hgetD _) (by norm_num))
    rw [hf, h1f, hmulA, hmulB, haddA, sub_self]
    congr 1
    ring

theorem resampleExactArith_spec (input : List Int) (inRate outRate : Nat)
    (h1 : 0 < inRate) (h2 : 0 < outRate) (hne : inRate ≠ outRate) :
    (resampleExactArith input inRate outRate).length = input.length * outRate / inRate ∧
    ∀ (i : Nat), i < (resampleExactArith input inRate outRate).length →
      (resampleExactArith input inRate outRate).getD i 0
        = resampleSpecSample input inRate outRate i := by
  constructor
  · rw [resampleExactArith, if_neg hne]
    simp only [List.length_map, List.length_range]
    rw [show (input.length : ℚ) * ((outRate : ℚ) / (inRate : ℚ))
        = ((input.length * outRate : ℕ) : ℚ) / ((inRate : ℕ) : ℚ) from by push_cast; ring]
    rw [Int.floor_toNat]
    exact Rat.natFloor_natCast_div_natCast _ _
  · intro i hi
    rw [resampleExactArith, if_neg hne] at hi ⊢
    simp only [List.length_map, List.length_range] at hi
    rw [List.getD_eq_getElem _ _ (by simpa using hi), List.getElem_map, List.getElem_range]
    rw [resampleSpecSample]
    set p : ℚ := (i : ℚ) / ((outRate : ℚ) / (inRate : ℚ)) with hp_def
    have hp : 0 ≤ p := by positivity
    have hfl : 0 ≤ ⌊p⌋ := Int.floor_nonneg.2 hp
    have hcast : ((⌊p⌋.toNat : ℕ) : ℚ) = ((⌊p⌋ : ℤ) : ℚ) := by
      exact_mod_cast congrArg (fun z : ℤ => (z : ℚ)) (Int.toNat_of_nonneg hfl)
    have hfr : Int.fract p = p - ((⌊p⌋.toNat : ℕ) : ℚ) := by
      rw [← Int.self_sub_floor, hcast]
    by_cases hz : Int.fract p = 0
    · have hz2 : p - ((⌊p⌋.toNat : ℕ) : ℚ) = 0 := by rw [← hfr]; exact hz
      simp only [hz, hz2]
      congr 1
      ring
    · have hlt : ((⌊p⌋ : ℤ) : ℚ) < p := by
        rcases lt_or_eq_of_le (Int.floor_le p) with h | h
        · exact h
        · refine absurd ?_ hz
          rw [← Int.self_sub_floor]
          nth_rewrite 1 [← h]
          simp
      have hceil : ⌈p⌉ = ⌊p⌋ + 1 := by
        refine le_antisymm (Int.ceil_le.2 ?_) (Int.add_one_le_iff.2 (Int.lt_ceil.2 hlt))
        push_cast
        exact le_of_lt (Int.lt_floor_add_one p)
      have htoNat : (⌈p⌉).toNat = (⌊p⌋).toNat + 1 := by omega
      simp only [htoNat, hfr]

/-- C4, refuted as universally stated: at the distinct positive rates 3
and 13 (ratio 13/3), on 27 zero samples (a valid 16-bit sequence), the
resampler emits 116 output samples although `floor(27 * 13/3) = 117`: the
doubles `13/3` and `27 * (13/3)` each round below the exact value, so
`Math.floor` cuts the last sample. -/
theorem C4_counterexample :
    (0 : Nat) < 3 ∧ (0 : Nat) < 13 ∧ (3 : Nat) ≠ 13 ∧
    (∀ x ∈ List.replicate 27 (0 : Int), -32768 ≤ x ∧ x ≤ 32767) ∧
    (linearResamplePCM16 (List.replicate 27 0) 3 13).length = 116 ∧
    (List.replicate 27 (0 : Int)).length * 13 / 3 = 117 := by
  refine ⟨by decide, by decide, by decide, by decide, ?_, by decide⟩
  rw [linearResamplePCM16, if_neg (by decide : (3 : ℕ) ≠ 13)]
  simp only [List.length_map, List.length_range, List.length_replicate]
  with_unfolding_all decide

/-- C4 (amended): on the doubling and halving rate pairs the program uses
(ratios 2.0 and 0.5, the spec's representative ratios), with rates and
input length at most `2 ^ 50` and 16-bit samples, every intermediate
double is exactly representable, the resampler's output length equals
`floor(inputLength * rateOut / rateIn)` exactly (so empty input yields
empty output), and every output sample is the spec's clamped floor/ceil
linear interpolation weighted by the fractional part of the source
position. -/
theorem C4_resampler_amended (input : List Int) (inRate outRate : Nat)
    (h1 : 0 < inRate) (h2 : 0 < outRate)
    (hdbl : outRate = 2 * inRate ∨ inRate = 2 * outRate)
    (hIn : inRate ≤ 2 ^ 50) (hlen : input.length ≤ 2 ^ 50)
    (hs : ∀ x ∈ input, -32768 ≤ x ∧ x ≤ 32767) :
    (linearResamplePCM16 input inRate outRate).length = input.length * outRate / inRate ∧
    ∀ (i : Nat), i < (linearResamplePCM16 input inRate outRate).length →
      (linearResamplePCM16 input inRate outRate).getD i 0
        = resampleSpecSample input inRate outRate i := by
  rw [resample_double_exact input inRate outRate h1 hdbl hIn hlen hs]
  exact resampleExactArith_spec input inRate outRate h1 h2
    (by rcases hdbl with h | h <;> omega)

/-- Witness for the amended C4 at rates 8000 to 16000 on a 3-sample buffer. -/
theorem C4_resampler_amended_witness :
    ((0 : Nat) < 8000 ∧ (0 : Nat) < 16000 ∧
      ((16000 : Nat) = 2 * 8000 ∨ (8000 : Nat) = 2 * 16000) ∧
      (8000 : Nat) ≤ 2 ^ 50 ∧ ([1000, -2000, 300] : List Int).length ≤ 2 ^ 50 ∧
      (∀ x ∈ ([1000, -2000, 300] : List Int), -32768 ≤ x ∧ x ≤ 32767)) ∧
    ((linearResamplePCM16 [1000, -2000, 300] 8000 16000).length
        = ([1000, -2000, 300] : List Int).length * 16000 / 8000 ∧
     ∀ (i : Nat), i < (linearResamplePCM16 [1000, -2000, 300] 8000 16000).length →
       (linearResamplePCM16 [1000, -2000, 300] 8000 16000).getD i 0
         = resampleSpecSample [1000, -2000, 300] 8000 16000 i) :=
  ⟨⟨by decide, by decide, by decide, by decide, by decide, by decide⟩,
   C4_resampler_amended [1000, -2000, 300] 8000 16000 (by decide) (by decide)
     (by decide) (by decide) (by decide) (by decide)⟩
